import Mathlib

/-!
# A verification development for the `cachevoice` TTS caching proxy

Shallow embedding, in Lean 4, of the core components of the repository:

* `cachevoice/cache/normalizer.py` — the text-normalization pipeline that
  produces cache fingerprints;
* `cachevoice/cache/hot.py`, `matcher.py`, `store.py` — the in-memory hot
  index, the exact/fuzzy matcher, and the artifact store (including the
  MD5-derived artifact filenames);
* `cachevoice/cache/metadata.py` — the catalog operations
  (`record_hit`, `get_version_count`, `get_eviction_candidates`,
  the v1→v2 schema migration);
* `cachevoice/gateway/fallback.py` — the fallback orchestrator with its
  per-provider circuit breaker;
* the request-pipeline fragments of `cachevoice/server.py` that the
  properties below are about.

Python strings are modelled as `List Char` / `String`; machine floats used
as monotonic-clock readings are modelled as integers (only their ordering
and the addition of durations matter); SQLite tables are modelled
as lists of rows; 32-bit machine arithmetic inside MD5 is `Nat` arithmetic
with explicit reduction modulo `2 ^ 32`.  Regex character classes (`\s`,
`\w`, `\d`) are modelled over the ASCII range plus the Turkish letters the
pipeline special-cases; this covers every character the repository's own
tests exercise.
-/

namespace Cachevoice

/-! ## Normalizer — `cachevoice/cache/normalizer.py`

The pipeline is, in source order: trim; strip MiniMax markup (pause
markers `<#NUMBER#>` and interjection tags `(ident)`); the Turkish-aware
lowercase plus diacritic fold; whitespace collapse; punctuation strip;
number collapse; trim again.  Each regex substitution is embedded as a
left-to-right scan with an explicit fuel argument (fuel = input length),
keeping every definition structurally recursive and kernel-evaluable. -/

/-- Python whitespace (`str.strip`, regex `\s`), ASCII range. -/
def pyIsSpace (c : Char) : Bool :=
  c = ' ' || c = '\t' || c = '\n' || c = '\r' || c = '\x0b' || c = '\x0c'

/-- Python `str.strip()`: drop leading and trailing whitespace. -/
def pyStrip (l : List Char) : List Char :=
  ((l.dropWhile pyIsSpace).reverse.dropWhile pyIsSpace).reverse

/-- Characters matched by `[\d.]` inside the pause-marker pattern. -/
def isPauseInner (c : Char) : Bool := c.isDigit || c = '.'

/-- Characters matched by `[a-z_]` inside the interjection pattern. -/
def isInterjChar (c : Char) : Bool := ('a' ≤ c && c ≤ 'z') || c = '_'

/-- Try to match the regex `<#[\d.]+#>` (`_MINIMAX_PAUSE_RE`) at the head of
the list; on success return the suffix after the match.  Since `[\d.]+` can
only consume digit/dot characters, the regex matches exactly when the
maximal digit/dot run after `<#` is non-empty and is followed by `#>`. -/
def matchPause (l : List Char) : Option (List Char) :=
  match l with
  | a :: b :: rest =>
    if a = '<' ∧ b = '#' then
      if (rest.takeWhile isPauseInner).isEmpty then none
      else
        match rest.dropWhile isPauseInner with
        | c :: d :: tail => if c = '#' ∧ d = '>' then some tail else none
        | _ => none
    else none
  | _ => none

/-- Try to match the regex `\([a-z_]+\)` (`_MINIMAX_INTERJECTION_RE`) at the
head of the list; on success return the suffix after the match. -/
def matchInterj (l : List Char) : Option (List Char) :=
  match l with
  | a :: rest =>
    if a = '(' then
      if (rest.takeWhile isInterjChar).isEmpty then none
      else
        match rest.dropWhile isInterjChar with
        | c :: tail => if c = ')' then some tail else none
        | _ => none
    else none
  | _ => none

/-- `re.sub(_MINIMAX_PAUSE_RE, '', ·)` as a left-to-right scan.
With zero fuel the rest of the input is returned unchanged; the wrapper
passes `l.length`, which is always sufficient fuel. -/
def subPauseFuel : Nat → List Char → List Char
  | 0, l => l
  | _ + 1, [] => []
  | fuel + 1, c :: rest =>
    match matchPause (c :: rest) with
    | some tail => subPauseFuel fuel tail
    | none => c :: subPauseFuel fuel rest

def subPause (l : List Char) : List Char := subPauseFuel l.length l

/-- `re.sub(_MINIMAX_INTERJECTION_RE, '', ·)` as a left-to-right scan. -/
def subInterjFuel : Nat → List Char → List Char
  | 0, l => l
  | _ + 1, [] => []
  | fuel + 1, c :: rest =>
    match matchInterj (c :: rest) with
    | some tail => subInterjFuel fuel tail
    | none => c :: subInterjFuel fuel rest

def subInterj (l : List Char) : List Char := subInterjFuel l.length l

/-- `TURKISH_LOWER_MAP = str.maketrans('Iİ', 'ıi')`. -/
def turkishTranslate (c : Char) : Char :=
  if c = 'I' then 'ı' else if c = 'İ' then 'i' else c

/-- Unicode-default lowercasing (`str.lower`), restricted to the ASCII
uppercase range plus the Turkish uppercase letters the pipeline meets.
(`'I'` is lowered like any ASCII letter; in `turkish_lower` the translate
step has already rewritten `'I'` and `'İ'` before this map applies.) -/
def pyLowerChar (c : Char) : Char :=
  if 'A' ≤ c && c ≤ 'Z' then Char.ofNat (c.toNat + 32)
  else if c = 'Ç' then 'ç'
  else if c = 'Ğ' then 'ğ'
  else if c = 'Ö' then 'ö'
  else if c = 'Ş' then 'ş'
  else if c = 'Ü' then 'ü'
  else c

/-- `turkish_lower(text) = text.translate(TURKISH_LOWER_MAP).lower()`. -/
def turkish_lower (l : List Char) : List Char :=
  l.map fun c => pyLowerChar (turkishTranslate c)

/-- `DIACRITIC_MAP = str.maketrans('çğıöşü', 'cgiosu')`. -/
def diacriticFold (c : Char) : Char :=
  if c = 'ç' then 'c'
  else if c = 'ğ' then 'g'
  else if c = 'ı' then 'i'
  else if c = 'ö' then 'o'
  else if c = 'ş' then 's'
  else if c = 'ü' then 'u'
  else c

/-- `re.sub(r'\s+', ' ', ·)`: each maximal whitespace run becomes one `' '`. -/
def collapseWsFuel : Nat → List Char → List Char
  | 0, l => l
  | _ + 1, [] => []
  | fuel + 1, c :: rest =>
    if pyIsSpace c then ' ' :: collapseWsFuel fuel (rest.dropWhile pyIsSpace)
    else c :: collapseWsFuel fuel rest

def collapseWs (l : List Char) : List Char := collapseWsFuel l.length l

/-- The Turkish letters (both cases) that regex `\w` additionally accepts in
the texts this system handles. -/
def turkishLetters : List Char :=
  ['ç', 'ğ', 'ı', 'ö', 'ş', 'ü', 'Ç', 'Ğ', 'İ', 'Ö', 'Ş', 'Ü']

/-- Regex `\w`: alphanumerics and underscore (ASCII plus Turkish letters). -/
def pyIsWord (c : Char) : Bool :=
  c.isAlpha || c.isDigit || c = '_' || turkishLetters.contains c

/-- `re.sub(r'[^\w\s]', '', ·)`: keep only word and whitespace characters. -/
def stripPunct (l : List Char) : List Char :=
  l.filter fun c => pyIsWord c || pyIsSpace c

/-- `re.sub(r'\d+', '#', ·)`: each maximal digit run becomes one `'#'`. -/
def replaceNumsFuel : Nat → List Char → List Char
  | 0, l => l
  | _ + 1, [] => []
  | fuel + 1, c :: rest =>
    if c.isDigit then '#' :: replaceNumsFuel fuel (rest.dropWhile Char.isDigit)
    else c :: replaceNumsFuel fuel rest

def replaceNums (l : List Char) : List Char := replaceNumsFuel l.length l

/-- `NormalizeConfig` — `cachevoice/config.py`; all stages default to on. -/
structure NormalizeConfig where
  lowercase : Bool := true
  strip_punctuation : Bool := true
  collapse_whitespace : Bool := true
  replace_numbers : Bool := true
  strip_minimax : Bool := true
deriving DecidableEq, Repr

/-- `normalize(text, config)` over `List Char`, stage order as in source. -/
def normalizeChars (cfg : NormalizeConfig) (text : List Char) : List Char :=
  let t0 := pyStrip text
  if t0.isEmpty then []
  else
    let t1 := if cfg.strip_minimax then subInterj (subPause t0) else t0
    let t2 := if cfg.lowercase then (turkish_lower t1).map diacriticFold else t1
    let t3 := if cfg.collapse_whitespace then collapseWs t2 else t2
    let t4 := if cfg.strip_punctuation then stripPunct t3 else t3
    let t5 := if cfg.replace_numbers then replaceNums t4 else t4
    pyStrip t5

/-- `normalize(text, config)` on `String`. -/
def normalize (cfg : NormalizeConfig) (s : String) : String :=
  ⟨normalizeChars cfg s.data⟩

/-- `normalize(text)` with `config=None`: the default `NormalizeConfig()`. -/
def normalizeDefault (s : String) : String := normalize {} s

/-! ## MD5 — `hashlib.md5`, used by `FuzzyCacheStorage._make_filename`

The reference MD5 algorithm (RFC 1321) over byte lists, with 32-bit machine
arithmetic as `Nat` arithmetic reduced modulo `2 ^ 32`. -/

def M32 : Nat := 2 ^ 32

def add32 (a b : Nat) : Nat := (a + b) % M32

/-- 32-bit left rotation; the two summands occupy disjoint bit ranges. -/
def rotl32 (x s : Nat) : Nat := (x % M32 * 2 ^ s + x % M32 / 2 ^ (32 - s)) % M32

/-- Bitwise complement of a 32-bit value. -/
def not32 (x : Nat) : Nat := 4294967295 - x % M32

/-- The MD5 sine-derived constant table `K[0..63]`. -/
def mdK : List Nat :=
  [3614090360, 3905402710, 606105819, 3250441966, 4118548399, 1200080426,
   2821735955, 4249261313, 1770035416, 2336552879, 4294925233, 2304563134,
   1804603682, 4254626195, 2792965006, 1236535329, 4129170786, 3225465664,
   643717713, 3921069994, 3593408605, 38016083, 3634488961, 3889429448,
   568446438, 3275163606, 4107603335, 1163531501, 2850285829, 4243563512,
   1735328473, 2368359562, 4294588738, 2272392833, 1839030562, 4259657740,
   2763975236, 1272893353, 4139469664, 3200236656, 681279174, 3936430074,
   3572445317, 76029189, 3654602809, 3873151461, 530742520, 3299628645,
   4096336452, 1126891415, 2878612391, 4237533241, 1700485571, 2399980690,
   4293915773, 2240044497, 1873313359, 4264355552, 2734768916, 1309151649,
   4149444226, 3174756917, 718787259, 3951481745]

/-- The MD5 per-round shift table `S[0..63]`. -/
def mdS : List Nat :=
  [7, 12, 17, 22, 7, 12, 17, 22, 7, 12, 17, 22, 7, 12, 17, 22,
   5, 9, 14, 20, 5, 9, 14, 20, 5, 9, 14, 20, 5, 9, 14, 20,
   4, 11, 16, 23, 4, 11, 16, 23, 4, 11, 16, 23, 4, 11, 16, 23,
   6, 10, 15, 21, 6, 10, 15, 21, 6, 10, 15, 21, 6, 10, 15, 21]

/-- `count` bytes of `v`, little-endian. -/
def leBytes : Nat → Nat → List Nat
  | 0, _ => []
  | k + 1, v => v % 256 :: leBytes k (v / 256)

/-- MD5 padding: `0x80`, zeros to 56 mod 64, then the bit length as eight
little-endian bytes. -/
def md5Pad (msg : List Nat) : List Nat :=
  let z := (120 - (msg.length + 1) % 64) % 64
  msg ++ 128 :: List.replicate z 0 ++ leBytes 8 (8 * msg.length % 2 ^ 64)

/-- Word `i` of a 64-byte chunk, little-endian. -/
def leWord (chunk : List Nat) (i : Nat) : Nat :=
  chunk.getD (4 * i) 0 + 256 * chunk.getD (4 * i + 1) 0 +
    65536 * chunk.getD (4 * i + 2) 0 + 16777216 * chunk.getD (4 * i + 3) 0

/-- The MD5 round function for step `i`. -/
def md5F (i b c d : Nat) : Nat :=
  if i < 16 then b &&& c ||| not32 b &&& d
  else if i < 32 then d &&& b ||| not32 d &&& c
  else if i < 48 then b ^^^ c ^^^ d
  else c ^^^ (b ||| not32 d)

/-- The MD5 message-word index for step `i`. -/
def md5G (i : Nat) : Nat :=
  if i < 16 then i
  else if i < 32 then (5 * i + 1) % 16
  else if i < 48 then (3 * i + 5) % 16
  else 7 * i % 16

/-- One MD5 step on the state `(a, b, c, d)`. -/
def md5Step (w : Nat → Nat) (st : Nat × Nat × Nat × Nat) (i : Nat) :
    Nat × Nat × Nat × Nat :=
  let f := add32 (add32 (add32 (md5F i st.2.1 st.2.2.1 st.2.2.2) st.1)
    (mdK.getD i 0)) (w (md5G i))
  (st.2.2.2, add32 st.2.1 (rotl32 f (mdS.getD i 0)), st.2.1, st.2.2.1)

/-- Split a byte list into 64-byte chunks (fuel = list length suffices). -/
def chunks64Fuel : Nat → List Nat → List (List Nat)
  | 0, _ => []
  | _ + 1, [] => []
  | fuel + 1, l => l.take 64 :: chunks64Fuel fuel (l.drop 64)

/-- The MD5 state after processing the whole padded message. -/
def md5Process (msg : List Nat) : Nat × Nat × Nat × Nat :=
  let padded := md5Pad msg
  (chunks64Fuel padded.length padded).foldl
    (fun st chunk =>
      let r := (List.range 64).foldl (md5Step (leWord chunk)) st
      (add32 st.1 r.1, add32 st.2.1 r.2.1, add32 st.2.2.1 r.2.2.1,
        add32 st.2.2.2 r.2.2.2))
    (1732584193, 4023233417, 2562383102, 271733878)

def hexDigitChar (n : Nat) : Char :=
  if n < 10 then Char.ofNat (48 + n) else Char.ofNat (87 + n)

def byteHex (b : Nat) : List Char := [hexDigitChar (b / 16 % 16), hexDigitChar (b % 16)]

/-- `hashlib.md5(msg).hexdigest()`: the four state words, each rendered as
four little-endian bytes in lowercase hex. -/
def md5Hex (msg : List Nat) : String :=
  let st := md5Process msg
  ⟨(leBytes 4 st.1 ++ leBytes 4 st.2.1 ++ leBytes 4 st.2.2.1 ++
    leBytes 4 st.2.2.2).flatMap byteHex⟩

/-- UTF-8 encoding of one character (`str.encode()`). -/
def utf8EncodeChar (c : Char) : List Nat :=
  let n := c.toNat
  if n < 128 then [n]
  else if n < 2048 then [192 + n / 64, 128 + n % 64]
  else if n < 65536 then [224 + n / 4096, 128 + n / 64 % 64, 128 + n % 64]
  else [240 + n / 262144, 128 + n / 4096 % 64, 128 + n / 64 % 64, 128 + n % 64]

/-- `s.encode()`: the UTF-8 bytes of a string. -/
def utf8Bytes (s : String) : List Nat := s.data.flatMap utf8EncodeChar

/-! ## HotCache — `cachevoice/cache/hot.py` -/

/-- In-memory buckets: `voice_id → normalized_text → ordered audio paths`. -/
def HotBuckets : Type := String → String → List String

def emptyHot : HotBuckets := fun _ _ => []

/-- `HotCache.add`: append the path unless it is already present or the
bucket list has reached `variety_depth` (the cap, clamped to at least 1 at
construction). -/
def hotAdd (varietyDepth : Nat) (b : HotBuckets) (normalized voice path : String) :
    HotBuckets := fun v t =>
  if v = voice ∧ t = normalized then
    let paths := b voice normalized
    if path ∉ paths ∧ paths.length < varietyDepth then paths ++ [path] else paths
  else b v t

/-- `HotCache.exact_lookup` serves one path from the bucket list, chosen by
`random.choice` when several versions exist.  The embedding returns the
whole non-empty candidate list; the path Python serves is an element of
exactly this list. -/
def exactLookup (b : HotBuckets) (normalized voice : String) : Option (List String) :=
  let paths := b voice normalized
  if paths.isEmpty then none else some paths

/-! ## Matcher — `cachevoice/cache/matcher.py` -/

/-- `FuzzyConfig` — `cachevoice/config.py`; fuzzy matching is off by default. -/
structure FuzzyConfig where
  enabled : Bool := false
  threshold : Nat := 90
  scorer : String := "token_sort_ratio"
deriving DecidableEq, Repr

/-- The dictionary `FuzzyMatcher.find` returns on a hit.  `audioPaths` is the
candidate list the served path is drawn from (a singleton on a fuzzy hit). -/
structure MatchResult where
  audioPaths : List String
  match_type : String
  score : Nat
  normalized : String
  matched : Option String
deriving DecidableEq, Repr

/-- `FuzzyMatcher.find`.  Note the source normalizes the query with
`normalize(text)` — the *default* configuration — regardless of the
configuration the storage used when storing.  The rapidfuzz scorer is
outside the embedding: the fuzzy branch is parametrized by the value the
`HotCache.fuzzy_lookup` call would return (`none` is the only reachable
case under the default `enabled := false`). -/
def matcherFind (cfg : FuzzyConfig) (fuzzyResult : Option (String × String × Nat))
    (b : HotBuckets) (text voice : String) : Option MatchResult :=
  let normalized := normalizeDefault text
  if normalized = "" then none
  else
    match exactLookup b normalized voice with
    | some paths => some ⟨paths, "exact", 100, normalized, none⟩
    | none =>
      if !cfg.enabled then none
      else
        match fuzzyResult with
        | some (matchedText, path, score) =>
          some ⟨[path], "fuzzy", score, normalized, some matchedText⟩
        | none => none

/-! ## Catalog rows — `cachevoice/cache/metadata.py` -/

/-- A `cache_entries` row.  Timestamps are integer seconds. -/
structure CacheEntry where
  id : Nat
  text_original : String
  text_normalized : String
  voice_id : String
  model : String
  audio_path : String
  audio_format : String
  file_size : Nat
  hit_count : Nat
  is_filler : Bool
  version_num : Nat
  created_at : Int
  last_hit_at : Int
deriving DecidableEq, Repr

/-- `get_version_count`: `COUNT(*)` over rows matching the fingerprint and
voice (all versions). -/
def get_version_count (db : List CacheEntry) (t v : String) : Nat :=
  (db.filter fun r => decide (r.text_normalized = t ∧ r.voice_id = v)).length

/-- `record_hit`: the two UPDATE statements — with `version_num` the update
touches the single matching version row, without it every row matching
`(text_normalized, voice_id)`. -/
def record_hit (db : List CacheEntry) (t v : String) (version : Option Nat)
    (now : Int) : List CacheEntry :=
  match version with
  | some ver =>
    db.map fun r =>
      if r.text_normalized = t ∧ r.voice_id = v ∧ r.version_num = ver then
        { r with hit_count := r.hit_count + 1, last_hit_at := now }
      else r
  | none =>
    db.map fun r =>
      if r.text_normalized = t ∧ r.voice_id = v then
        { r with hit_count := r.hit_count + 1, last_hit_at := now }
      else r

/-- `add_entry`: INSERT; the unique index on
`(text_normalized, voice_id, version_num)` raises `sqlite3.IntegrityError`
on a duplicate. -/
def add_entry (db : List CacheEntry) (e : CacheEntry) : Except Unit (List CacheEntry) :=
  if ∃ r ∈ db, r.text_normalized = e.text_normalized ∧ r.voice_id = e.voice_id ∧
      r.version_num = e.version_num then
    .error ()
  else .ok (db ++ [e])

/-- `get_eviction_candidates(max_entries, min_age_days)`: the primary
SELECT (non-filler, never hit, created before `now - min_age_days` days,
ordered by `created_at` ascending) and, when the entry count minus the
primary count still exceeds `max_entries`, a second SELECT over *all*
non-filler rows ordered by `last_hit_at` ascending, limited to the
overflow.  Note the second SELECT does not exclude the primary rows. -/
def get_eviction_candidates (db : List CacheEntry) (maxEntries minAgeDays : Nat)
    (now : Int) : List CacheEntry :=
  let primary := List.insertionSort (fun a b => a.created_at ≤ b.created_at)
    (db.filter fun r => !r.is_filler && r.hit_count == 0 &&
      decide (r.created_at < now - 86400 * minAgeDays))
  if maxEntries < db.length - primary.length then
    let extraNeeded := db.length - primary.length - maxEntries
    primary ++ (List.insertionSort (fun a b => a.last_hit_at ≤ b.last_hit_at)
      (db.filter fun r => !r.is_filler)).take extraNeeded
  else primary

/-! ## Schema migration — `CacheMetadataDB._migrate_to_v2` -/

/-- A v1 `cache_entries` row (no `version_num` column yet); only the columns
the migration's DELETE consults are modelled. -/
structure V1Row where
  id : Nat
  text_normalized : String
  voice_id : String
  hit_count : Nat
deriving DecidableEq, Repr

/-- Row `r` survives the dedup DELETE iff its `ROW_NUMBER()` over the
partition `(text_normalized, voice_id)` ordered by
`hit_count DESC, id ASC` is 1 — that is, no row of the same partition sorts
strictly before it. -/
def survivesDedup (db : List V1Row) (r : V1Row) : Prop :=
  ¬∃ q ∈ db, (q.text_normalized = r.text_normalized ∧ q.voice_id = r.voice_id) ∧
    (r.hit_count < q.hit_count ∨ (q.hit_count = r.hit_count ∧ q.id < r.id))

instance (db : List V1Row) (r : V1Row) : Decidable (survivesDedup db r) := by
  unfold survivesDedup; infer_instance

structure MigrationResult where
  alteredColumn : Bool
  rows : List V1Row
  uniqueIndexCreated : Bool
deriving DecidableEq, Repr

/-- `_migrate_to_v2`: add the `version_num` column unless `PRAGMA table_info`
already shows it (partial-migration recovery), run the dedup DELETE, then
create the unique index. -/
def migrate_to_v2 (hasVersionNumColumn : Bool) (db : List V1Row) : MigrationResult :=
  { alteredColumn := !hasVersionNumColumn
    rows := db.filter fun r => decide (survivesDedup db r)
    uniqueIndexCreated := true }

/-! ## Fallback orchestrator — `cachevoice/gateway/fallback.py` -/

/-- `_CircuitState`: a queue of failure timestamps (oldest first) and the
`open_until` deadline.  Clock readings (`time.monotonic` floats in the
source) are modelled as integers: the circuit-breaker logic only compares
and adds them. -/
structure CircuitState where
  failures : List Int
  open_until : Int
deriving DecidableEq, Repr

structure OrchestratorConfig where
  failure_threshold : Nat := 3
  failure_window_seconds : Int := 300
  cooldown_seconds : Int := 300
deriving DecidableEq, Repr

/-- `_prune_old_failures`: popleft while the head is older than the window. -/
def pruneOldFailures (cfg : OrchestratorConfig) (now : Int) (failures : List Int) :
    List Int :=
  failures.dropWhile fun t => decide (t < now - cfg.failure_window_seconds)

/-- `_record_failure`: prune, append `now`, and when the queue has reached
`failure_threshold` set `open_until = now + cooldown_seconds`. -/
def recordFailure (cfg : OrchestratorConfig) (now : Int) (st : CircuitState) :
    CircuitState :=
  let fs := pruneOldFailures cfg now st.failures ++ [now]
  if cfg.failure_threshold ≤ fs.length then ⟨fs, now + cfg.cooldown_seconds⟩
  else ⟨fs, st.open_until⟩

/-- `_clear_failures`: empty the queue and reset `open_until`. -/
def clearedCircuit : CircuitState := ⟨[], 0⟩

/-- `_is_circuit_open`: prune, then compare `open_until` with `now`; a passed
non-zero deadline is written back as 0 (Python truthiness of
`state.open_until`).  Returns the decision and the mutated state. -/
def isCircuitOpen (cfg : OrchestratorConfig) (now : Int) (st : CircuitState) :
    Bool × CircuitState :=
  let fs := pruneOldFailures cfg now st.failures
  if now < st.open_until then (true, ⟨fs, st.open_until⟩)
  else (false, ⟨fs, if st.open_until ≠ 0 then 0 else st.open_until⟩)

/-- Provider-call failures, as classified by `_extract_status_code` and the
`isinstance` tests of `_should_fallback`/`_count_failure`: an exception
carrying an HTTP status code, a network-level failure (`TimeoutException`,
`ConnectError`, `asyncio.TimeoutError`), or any other exception. -/
inductive ProviderError where
  | httpStatus (code : Int)
  | networkFailure
  | otherError
deriving DecidableEq, Repr

def extractStatusCode : ProviderError → Option Int
  | .httpStatus code => some code
  | .networkFailure => none
  | .otherError => none

/-- `_should_fallback`. -/
def shouldFallback (statusCode : Option Int) (e : ProviderError) : Bool :=
  match statusCode with
  | some code =>
    if code = 400 then false
    else if code = 429 then true
    else decide (500 ≤ code)
  | none => decide (e = .networkFailure)

/-- `_count_failure`. -/
def countFailure (statusCode : Option Int) (e : ProviderError) : Bool :=
  match statusCode with
  | some code => decide (code = 429) || decide (500 ≤ code)
  | none => decide (e = .networkFailure)

/-- `_to_http_exception`: keep the extracted status code, default to 503. -/
def toHttpStatus (statusCode : Option Int) : Int :=
  match statusCode with
  | some code => code
  | none => 503

deriving instance DecidableEq for Except

/-- What one provider call returns (`_call_provider` and the concrete
provider clients are abstracted into this outcome map). -/
inductive SynthesisOutcome where
  | ok (audio : String)
  | err (e : ProviderError)
deriving DecidableEq, Repr

def updateCircuit (circ : String → CircuitState) (p : String) (st : CircuitState) :
    String → CircuitState :=
  fun q => if q = p then st else circ q

/-- The observable result of one `synthesize` call: the returned audio or
the raised `HTTPException` status, the circuit map afterwards, the providers
whose `_call_provider` actually ran, and the next clock index. -/
structure WalkResult where
  result : Except Int String
  circuits : String → CircuitState
  called : List String
  clockIdx : Nat

/-- `FallbackOrchestrator.synthesize`: the ordered walk over the fallback
chain.  `clock` models the injectable `now_fn`, read once per
`_is_circuit_open` and once per `_record_failure`; `outcome p` models what
calling provider `p` returns or raises. -/
def synthesizeWalk (cfg : OrchestratorConfig) (clock : Nat → Int)
    (outcome : String → SynthesisOutcome) :
    List String → (String → CircuitState) → Nat → WalkResult
  | [], circ, i => ⟨.error 503, circ, [], i⟩
  | p :: rest, circ, i =>
    let check := isCircuitOpen cfg (clock i) (circ p)
    let circ1 := updateCircuit circ p check.2
    if check.1 then synthesizeWalk cfg clock outcome rest circ1 (i + 1)
    else
      match outcome p with
      | .ok audio => ⟨.ok audio, updateCircuit circ1 p clearedCircuit, [p], i + 1⟩
      | .err e =>
        let status := extractStatusCode e
        let counted := countFailure status e
        let circ2 :=
          if counted then
            updateCircuit circ1 p (recordFailure cfg (clock (i + 1)) (circ1 p))
          else circ1
        let i2 := if counted then i + 2 else i + 1
        if shouldFallback status e then
          let r := synthesizeWalk cfg clock outcome rest circ2 i2
          { r with called := p :: r.called }
        else ⟨.error (toHttpStatus status), circ2, [p], i2⟩

/-- `_record_failure` applied in sequence at the given times, starting from
a fresh circuit. -/
def foldFailures (cfg : OrchestratorConfig) (ts : List Int) : CircuitState :=
  ts.foldl (fun st t => recordFailure cfg t st) ⟨[], 0⟩

/-! ## Store — `cachevoice/cache/store.py` -/

/-- `FuzzyCacheStorage._make_filename`: the first 16 hex characters of the
MD5 of `fingerprint:voice:format`, with `:version` appended once
`version_num > 1`, plus the format suffix. -/
def make_filename (normalized voice fmt : String) (version : Nat) : String :=
  let key :=
    if version ≤ 1 then normalized ++ ":" ++ voice ++ ":" ++ fmt
    else normalized ++ ":" ++ voice ++ ":" ++ fmt ++ ":" ++ toString version
  (md5Hex (utf8Bytes key)).take 16 ++ "." ++ fmt

/-- `FuzzyCacheStorage` state: the audio directory, the clamped variety
depth (`max(1, variety_depth)` at construction), the normalize and fuzzy
configurations the constructor received (`none` = Python `None`), the hot
buckets, and the optionally attached catalog. -/
structure FuzzyCacheStorage where
  audio_dir : String
  variety_depth : Nat
  normalize_config : Option NormalizeConfig
  fuzzy_config : FuzzyConfig
  hot : HotBuckets
  db : Option (List CacheEntry)

/-- The `FuzzyCacheStorage` constructor. -/
def mkStorage (audioDir : String) (varietyDepth : Nat)
    (normalizeConfig : Option NormalizeConfig) (fuzzyConfig : FuzzyConfig)
    (db : Option (List CacheEntry)) : FuzzyCacheStorage :=
  ⟨audioDir, max 1 varietyDepth, normalizeConfig, fuzzyConfig, emptyHot, db⟩

/-- What one `store` call produced: the returned path, the chosen
`version_num`, the mutated storage, and whether the attached catalog's
insert raised `IntegrityError` (in which case the exception propagates, the
artifact file and the hot-bucket entry having already been written). -/
structure StoreOutcome where
  path : String
  version : Nat
  storage : FuzzyCacheStorage
  integrityError : Bool

/-- `FuzzyCacheStorage.store(text, voice_id, audio_data, audio_format,
version_num)`.  `audioSize` is `len(audio_data)`; `now` stands for the
`CURRENT_TIMESTAMP` default of the inserted row; the row id models the
AUTOINCREMENT key. -/
def storageStore (st : FuzzyCacheStorage) (text voice : String) (audioSize : Nat)
    (fmt : String) (versionArg : Option Nat) (now : Int) : StoreOutcome :=
  let normalized := normalize (st.normalize_config.getD {}) text
  let version :=
    match versionArg, st.db with
    | none, some db => min (get_version_count db normalized voice + 1) st.variety_depth
    | none, none => 1
    | some v, _ => v
  let filename := make_filename normalized voice fmt version
  let filepath := st.audio_dir ++ "/" ++ filename
  let hot1 := hotAdd st.variety_depth st.hot normalized voice filepath
  match st.db with
  | none => ⟨filepath, version, { st with hot := hot1 }, false⟩
  | some db =>
    let entry : CacheEntry :=
      ⟨db.length + 1, text, normalized, voice, "", filepath, fmt, audioSize,
        0, false, version, now, now⟩
    match add_entry db entry with
    | .ok db1 => ⟨filepath, version, { st with hot := hot1, db := some db1 }, false⟩
    | .error _ => ⟨filepath, version, { st with hot := hot1 }, true⟩

/-- `FuzzyCacheStorage.lookup`: delegate to the matcher (with the storage's
fuzzy configuration). -/
def storageLookup (st : FuzzyCacheStorage)
    (fuzzyResult : Option (String × String × Nat)) (text voice : String) :
    Option MatchResult :=
  matcherFind st.fuzzy_config fuzzyResult st.hot text voice

/-! ## Request-pipeline fragments — `cachevoice/server.py`

`audio_speech` composes the pieces above.  The fragments the claims are
about are embedded below; HTTP framing, transcoding and logging are outside
the model. -/

/-- The cache-hit accounting of `audio_speech` (lines 329-331): exactly one
`record_hit`, keyed by the *matched* fingerprint when the result carries one
(fuzzy hit) and by the normalized input otherwise, with the version argument
omitted. -/
def hitPathRecordHit (db : List CacheEntry) (result : MatchResult) (voice : String)
    (now : Int) : List CacheEntry :=
  record_hit db (result.matched.getD result.normalized) voice none now

/-- Modelled from the spec: `CacheMetadataDB.record_miss` — §4.3 lists it as
an observability-only counter and `server.audio_speech` calls it, but the
`CacheMetadataDB` class in the snapshot lacks the method (as it lacks the
`total_misses` field the integration test expects from `get_stats`). -/
def record_miss (misses : Nat) : Nat := misses + 1

/-- The persist step of the cache-miss path (lines 371-398). -/
structure MissPathResult where
  misses : Nat
  db : List CacheEntry
  storage : FuzzyCacheStorage
  returnedAudio : String
  storedPath : Option String
  missHandledAsHit : Bool

/-- `audio_speech`, persist step (lines 371-398): over-long text records a
miss and skips caching but still returns the synthesized audio; otherwise a
miss is recorded, the artifact is written through the store (the server's
storage has no attached catalog), a row is inserted into the catalog
directly, and a duplicate insert (`IntegrityError`) is converted into a
`record_hit` on the already-existing rows.  `audioData` is the synthesized
audio returned to the client in every branch. -/
def audioSpeechPersist (storage : FuzzyCacheStorage) (db : List CacheEntry)
    (misses maxTextLength : Nat) (text voice model audioData : String)
    (providerFormat : String) (now : Int) : MissPathResult :=
  if maxTextLength < text.length then
    ⟨record_miss misses, db, storage, audioData, none, false⟩
  else
    let misses1 := record_miss misses
    let normalized := normalizeDefault text
    let so := storageStore storage text voice audioData.length providerFormat none now
    let entry : CacheEntry :=
      ⟨db.length + 1, text, normalized, voice, model, so.path, providerFormat,
        audioData.length, 0, false, 1, now, now⟩
    match add_entry db entry with
    | .ok db1 => ⟨misses1, db1, so.storage, audioData, some so.path, false⟩
    | .error _ =>
      ⟨misses1, record_hit db normalized voice none now, so.storage, audioData,
        some so.path, true⟩

/-! ## Variety generation — modelled from the spec

The variety-generation step of `audio_speech` and the process-wide
single-flight set `_variety_in_flight` are referenced by the repository's
integration tests (`monkeypatch.setattr(server, "_variety_in_flight",
set())`) and by `CacheConfig.variety_depth` in the tests' settings, but the
snapshot of `cachevoice/server.py` and `config.py` does not contain them;
they are modelled from spec §4.8 step 7. -/

/-- Modelled from the spec: after the artifact is persisted, with
`variety_depth > 1`, examine the number of existing versions for
`(fingerprint, voice)`; if fewer than `variety_depth` and the key is not in
the single-flight set, insert the key and spawn the background task,
otherwise skip spawning.  Returns whether a task was spawned and the new
single-flight set. -/
def varietyStep (varietyDepth versionCount : Nat)
    (inFlight : List (String × String)) (key : String × String) :
    Bool × List (String × String) :=
  if 1 < varietyDepth ∧ versionCount < varietyDepth ∧ key ∉ inFlight then
    (true, key :: inFlight)
  else (false, inFlight)

/-- Modelled from the spec: on completion the background task removes its
key from the single-flight set. -/
def varietyComplete (inFlight : List (String × String)) (key : String × String) :
    List (String × String) :=
  inFlight.erase key

/-! ## Claim C1 -/

/-- C1: on the cache-miss path with `variety_depth > 1`, after the artifact
is persisted, if the number of existing versions for `(fingerprint, voice)`
is fewer than `variety_depth`, the pipeline spawns the background task and
inserts the single-flight key; a second concurrent request that finds the
key in flight (whatever version count it observes) skips spawning and
leaves the set unchanged. -/
theorem C1_variety_single_flight (varietyDepth versionCount versionCount2 : Nat)
    (inFlight : List (String × String)) (key : String × String)
    (hdepth : 1 < varietyDepth) (hcount : versionCount < varietyDepth)
    (hflight : key ∉ inFlight) :
    varietyStep varietyDepth versionCount inFlight key = (true, key :: inFlight) ∧
    varietyStep varietyDepth versionCount2 (key :: inFlight) key =
      (false, key :: inFlight) := by
  constructor
  · simp [varietyStep, hdepth, hcount, hflight]
  · simp [varietyStep]

theorem C1_variety_single_flight_witness :
    varietyStep 3 1 [] ("f", "v") = (true, [("f", "v")]) ∧
    varietyStep 3 1 [("f", "v")] ("f", "v") = (false, [("f", "v")]) :=
  C1_variety_single_flight 3 1 1 [] ("f", "v") (by decide) (by decide) (by decide)

/-! ## Claim C2 -/

/-- C2 counterexample: a catalog holding two version rows for the matched
`(fingerprint, voice)`; the cache-hit accounting (one `record_hit` with the
version omitted) increments BOTH rows, so the row whose artifact was not
served does not keep its `hit_count` unchanged. -/
theorem C2_counterexample :
    (hitPathRecordHit
        [⟨1, "t", "f", "v", "", "/a/p1.mp3", "mp3", 3, 0, false, 1, 0, 0⟩,
         ⟨2, "t", "f", "v", "", "/a/p2.mp3", "mp3", 3, 0, false, 2, 0, 0⟩]
        ⟨["/a/p1.mp3", "/a/p2.mp3"], "exact", 100, "f", none⟩ "v" 5).map
        CacheEntry.hit_count = [1, 1] := by
  decide

/-- C2 (amended): the hit path issues exactly one `record_hit`, keyed by the
matched fingerprint with the version omitted; it increments `hit_count` by
exactly one on EVERY version row of the matched `(fingerprint, voice)` —
not only the row whose artifact was served — and leaves every other row
unchanged. -/
theorem C2_record_hit_increments_every_version_row (db : List CacheEntry)
    (result : MatchResult) (voice : String) (now : Int) :
    (hitPathRecordHit db result voice now).length = db.length ∧
    ∀ (i : Nat) (r : CacheEntry), db[i]? = some r →
      (hitPathRecordHit db result voice now)[i]? =
        some (if r.text_normalized = result.matched.getD result.normalized ∧
            r.voice_id = voice then
          { r with hit_count := r.hit_count + 1, last_hit_at := now }
        else r) := by
  unfold hitPathRecordHit record_hit
  refine ⟨List.length_map _ _, fun i r h => ?_⟩
  simp [List.getElem?_map, h]

theorem C2_record_hit_increments_every_version_row_witness :
    ((hitPathRecordHit
        [⟨1, "t", "f", "v", "", "/a/p1.mp3", "mp3", 3, 0, false, 1, 0, 0⟩,
         ⟨2, "t", "f", "v", "", "/a/p2.mp3", "mp3", 3, 0, false, 2, 0, 0⟩]
        ⟨["/a/p1.mp3", "/a/p2.mp3"], "exact", 100, "f", none⟩ "v" 5).length = 2) ∧
    ((hitPathRecordHit
        [⟨1, "t", "f", "v", "", "/a/p1.mp3", "mp3", 3, 0, false, 1, 0, 0⟩,
         ⟨2, "t", "f", "v", "", "/a/p2.mp3", "mp3", 3, 0, false, 2, 0, 0⟩]
        ⟨["/a/p1.mp3", "/a/p2.mp3"], "exact", 100, "f", none⟩ "v" 5)[1]? =
      some ⟨2, "t", "f", "v", "", "/a/p2.mp3", "mp3", 3, 1, false, 2, 0, 5⟩) := by
  refine ⟨(C2_record_hit_increments_every_version_row _ _ _ _).1, ?_⟩
  have h := (C2_record_hit_increments_every_version_row
    [⟨1, "t", "f", "v", "", "/a/p1.mp3", "mp3", 3, 0, false, 1, 0, 0⟩,
     ⟨2, "t", "f", "v", "", "/a/p2.mp3", "mp3", 3, 0, false, 2, 0, 0⟩]
    ⟨["/a/p1.mp3", "/a/p2.mp3"], "exact", 100, "f", none⟩ "v" 5).2 1
    ⟨2, "t", "f", "v", "", "/a/p2.mp3", "mp3", 3, 0, false, 2, 0, 0⟩ (by decide)
  rw [h]
  decide

/-! ## Claim C4 -/

/-- C4 counterexample: a provider raising an error with no status code that
is not a network failure ABORTS the walk with HTTP 503 and records no
circuit-breaker failure; the next provider in the chain, which would have
succeeded, is never called — the orchestrator does not continue the walk. -/
theorem C4_counterexample :
    (synthesizeWalk {} (fun i => 1000 + (i : Int))
        (fun p => if p = "litellm" then .err .otherError else .ok "edge-audio")
        ["litellm", "edge"] (fun _ => clearedCircuit) 0).called = ["litellm"] ∧
    (synthesizeWalk {} (fun i => 1000 + (i : Int))
        (fun p => if p = "litellm" then .err .otherError else .ok "edge-audio")
        ["litellm", "edge"] (fun _ => clearedCircuit) 0).result = .error 503 ∧
    (synthesizeWalk {} (fun i => 1000 + (i : Int))
        (fun p => if p = "litellm" then .err .otherError else .ok "edge-audio")
        ["litellm", "edge"] (fun _ => clearedCircuit) 0).circuits "litellm" =
      ⟨[], 0⟩ := by
  refine ⟨?_, ?_, ?_⟩ <;> decide

/-- C4 (amended): a provider error carrying no status code that is not a
network-level failure is classified NON-retryable: `_should_fallback` and
`_count_failure` both answer false, so the orchestrator records no
circuit-breaker failure for the provider and aborts the walk (surfacing
HTTP 503) instead of continuing to the next provider. -/
theorem C4_no_status_unknown_error_aborts (cfg : OrchestratorConfig)
    (clock : Nat → Int) (outcome : String → SynthesisOutcome) (p : String)
    (rest : List String) (circ : String → CircuitState) (i : Nat)
    (hclosed : (isCircuitOpen cfg (clock i) (circ p)).1 = false)
    (herr : outcome p = .err .otherError) :
    shouldFallback (extractStatusCode .otherError) .otherError = false ∧
    countFailure (extractStatusCode .otherError) .otherError = false ∧
    (synthesizeWalk cfg clock outcome (p :: rest) circ i).result = .error 503 ∧
    (synthesizeWalk cfg clock outcome (p :: rest) circ i).called = [p] ∧
    (synthesizeWalk cfg clock outcome (p :: rest) circ i).circuits p =
      (isCircuitOpen cfg (clock i) (circ p)).2 := by
  refine ⟨rfl, rfl, ?_, ?_, ?_⟩ <;>
    simp [synthesizeWalk, hclosed, herr, extractStatusCode, countFailure,
      shouldFallback, toHttpStatus, updateCircuit]

theorem C4_no_status_unknown_error_aborts_witness :
    shouldFallback (extractStatusCode .otherError) .otherError = false ∧
    countFailure (extractStatusCode .otherError) .otherError = false ∧
    (synthesizeWalk {} (fun i => 1000 + (i : Int))
        (fun p => if p = "litellm" then .err .otherError else .ok "edge-audio")
        ["litellm", "edge"] (fun _ => clearedCircuit) 0).result = .error 503 ∧
    (synthesizeWalk {} (fun i => 1000 + (i : Int))
        (fun p => if p = "litellm" then .err .otherError else .ok "edge-audio")
        ["litellm", "edge"] (fun _ => clearedCircuit) 0).called = ["litellm"] ∧
    (synthesizeWalk {} (fun i => 1000 + (i : Int))
        (fun p => if p = "litellm" then .err .otherError else .ok "edge-audio")
        ["litellm", "edge"] (fun _ => clearedCircuit) 0).circuits "litellm" =
      (isCircuitOpen {} ((fun i => 1000 + (i : Int)) 0) ((fun _ => clearedCircuit) "litellm")).2 :=
  C4_no_status_unknown_error_aborts {} (fun i => 1000 + (i : Int))
    (fun p => if p = "litellm" then .err .otherError else .ok "edge-audio")
    "litellm" ["edge"] (fun _ => clearedCircuit) 0 (by decide) (by decide)

/-! ## Claim C10 -/

/-- After `HotCache.add`, the bucket of the added key is non-empty (the add
either appends the path or was skipped because the bucket already holds the
path or is full — the cap being at least 1). -/
theorem hotAdd_self_ne_nil (depth : Nat) (b : HotBuckets)
    (normalized voice path : String) (hdepth : 1 ≤ depth) :
    hotAdd depth b normalized voice path voice normalized ≠ [] := by
  unfold hotAdd
  rw [if_pos ⟨rfl, rfl⟩]
  by_cases h : path ∉ b voice normalized ∧ (b voice normalized).length < depth
  · rw [if_pos h]; simp
  · rw [if_neg h]
    intro hnil
    refine h ⟨by simp [hnil], by rw [hnil]; simpa using hdepth⟩

/-- `store` leaves the hot index with the fingerprint's bucket updated via
`HotCache.add` (whatever the catalog branch did). -/
theorem storageStore_storage_hot (st : FuzzyCacheStorage) (text voice : String)
    (audioSize : Nat) (fmt : String) (versionArg : Option Nat) (now : Int) :
    ∃ path, (storageStore st text voice audioSize fmt versionArg now).storage.hot =
      hotAdd st.variety_depth st.hot (normalize (st.normalize_config.getD {}) text)
        voice path := by
  rcases st with ⟨ad, vd, nc, fc, hot, sdb⟩
  cases sdb <;> cases versionArg <;> unfold storageStore <;> dsimp only <;>
    first
      | exact ⟨_, rfl⟩
      | (split <;> exact ⟨_, rfl⟩)

/-- C10 counterexample: with a non-default normalize configuration
(lowercase disabled) the store fingerprints `"A"` as `"A"` (non-empty), but
the matcher re-normalizes the lookup with the DEFAULT rules, producing
`"a"`: the lookup of the exact text immediately after storing it misses —
store and lookup do not compute the same fingerprint. -/
theorem C10_counterexample :
    normalize ⟨false, true, true, true, true⟩ "A" = "A" ∧
    storageLookup
      (storageStore (mkStorage "/audio" 1 (some ⟨false, true, true, true, true⟩) {} none)
        "A" "v" 3 "mp3" none 0).storage none "A" "v" = none := by
  exact ⟨by decide, by decide⟩

/-- C10 (amended): the lookup-after-store round trip holds exactly when the
configuration carried by the storage fingerprints the text the same way as
the default rules the matcher applies (in particular when the storage
carries the default configuration): then, for a non-empty fingerprint, a
lookup of the exact text immediately after storing it returns an exact
hit. -/
theorem C10_store_then_lookup_exact (st : FuzzyCacheStorage) (text voice : String)
    (audioSize : Nat) (fmt : String) (versionArg : Option Nat) (now : Int)
    (fuzzyResult : Option (String × String × Nat))
    (hdepth : 1 ≤ st.variety_depth)
    (hagree : normalize (st.normalize_config.getD {}) text = normalizeDefault text)
    (hne : normalizeDefault text ≠ "") :
    ∃ paths, paths ≠ [] ∧
      storageLookup (storageStore st text voice audioSize fmt versionArg now).storage
          fuzzyResult text voice =
        some ⟨paths, "exact", 100, normalizeDefault text, none⟩ := by
  obtain ⟨path, hhot⟩ := storageStore_storage_hot st text voice audioSize fmt versionArg now
  rw [hagree] at hhot
  have hb := hotAdd_self_ne_nil st.variety_depth st.hot (normalizeDefault text) voice
    path hdepth
  unfold storageLookup matcherFind exactLookup
  rw [hhot, if_neg hne]
  have hbe : (hotAdd st.variety_depth st.hot (normalizeDefault text) voice path voice
      (normalizeDefault text)).isEmpty = false := by
    rw [List.isEmpty_eq_false]
    exact hb
  simp only [hbe, Bool.false_eq_true, if_false]
  exact ⟨_, hb, rfl⟩

theorem C10_store_then_lookup_exact_witness :
    ∃ paths, paths ≠ [] ∧
      storageLookup (storageStore (mkStorage "/audio" 1 none {} none)
          "Merhaba" "v" 3 "mp3" none 0).storage none "Merhaba" "v" =
        some ⟨paths, "exact", 100, normalizeDefault "Merhaba", none⟩ :=
  C10_store_then_lookup_exact (mkStorage "/audio" 1 none {} none) "Merhaba" "v"
    3 "mp3" none 0 none (by decide) rfl (by decide)

/-! ## Claim C7 -/

/-- C7: `store` with no version supplied and an attached catalog chooses
`version = min(get_version_count(fingerprint, voice) + 1, variety_depth)`,
and the returned artifact path is `audio_dir/` followed by the first 16 hex
characters of the MD5 of `fingerprint:voice:format` when the chosen version
is 1, else of `fingerprint:voice:format:version`, with the format as
suffix. -/
theorem C7_store_version_and_filename (st : FuzzyCacheStorage) (db : List CacheEntry)
    (text voice : String) (audioSize : Nat) (fmt : String) (now : Int)
    (hdb : st.db = some db) (hdepth : 1 ≤ st.variety_depth) :
    (storageStore st text voice audioSize fmt none now).version =
      min (get_version_count db (normalize (st.normalize_config.getD {}) text) voice + 1)
        st.variety_depth ∧
    (storageStore st text voice audioSize fmt none now).path =
      st.audio_dir ++ "/" ++
        ((md5Hex (utf8Bytes
          (if min (get_version_count db (normalize (st.normalize_config.getD {}) text)
                voice + 1) st.variety_depth = 1 then
            normalize (st.normalize_config.getD {}) text ++ ":" ++ voice ++ ":" ++ fmt
          else
            normalize (st.normalize_config.getD {}) text ++ ":" ++ voice ++ ":" ++
              fmt ++ ":" ++
              toString (min (get_version_count db
                (normalize (st.normalize_config.getD {}) text) voice + 1)
                st.variety_depth)))).take 16 ++ "." ++ fmt) := by
  have hver : 1 ≤ min (get_version_count db
      (normalize (st.normalize_config.getD {}) text) voice + 1) st.variety_depth :=
    le_min (Nat.succ_le_succ (Nat.zero_le _)) hdepth
  have hkey : (min (get_version_count db
        (normalize (st.normalize_config.getD {}) text) voice + 1) st.variety_depth ≤ 1) =
      (min (get_version_count db (normalize (st.normalize_config.getD {}) text) voice + 1)
        st.variety_depth = 1) := by
    apply propext
    omega
  unfold storageStore make_filename
  simp only [hdb]
  constructor
  · split <;> rfl
  · split <;> simp only [hkey]

theorem C7_store_version_and_filename_witness :
    ((storageStore (mkStorage "/audio" 3 none {} (some [])) "Merhaba" "v" 9 "mp3"
        none 0).version =
      min (get_version_count [] (normalize ((mkStorage "/audio" 3 none {}
        (some [])).normalize_config.getD {}) "Merhaba") "v" + 1)
        (mkStorage "/audio" 3 none {} (some [])).variety_depth) ∧
    ((storageStore (mkStorage "/audio" 3 none {} (some [])) "Merhaba" "v" 9 "mp3"
        none 0).path = "/audio/fdffeb7714b8729e.mp3") := by
  set_option maxRecDepth 10000 in
  refine ⟨(C7_store_version_and_filename (mkStorage "/audio" 3 none {} (some []))
      [] "Merhaba" "v" 9 "mp3" 0 rfl (by decide)).1, ?_⟩
  rw [(C7_store_version_and_filename (mkStorage "/audio" 3 none {} (some []))
      [] "Merhaba" "v" 9 "mp3" 0 rfl (by decide)).2]
  decide

/-! ## Claim C3 -/

/-- C3: the miss path completes normally in both persist branches (the
`record_miss` counter is the spec-modelled catalog operation): over-long
text records a miss, skips the cache write and still returns the
synthesized audio; text within the limit records a miss, writes the
artifact through the store, appends the catalog row and returns the
audio. -/
theorem C3_miss_path_completes (storage : FuzzyCacheStorage) (db : List CacheEntry)
    (misses maxTextLength : Nat) (text voice model audioData fmt : String)
    (now : Int) :
    (maxTextLength < text.length →
      audioSpeechPersist storage db misses maxTextLength text voice model audioData
          fmt now =
        ⟨misses + 1, db, storage, audioData, none, false⟩) ∧
    (text.length ≤ maxTextLength →
      (¬∃ r ∈ db, r.text_normalized = normalizeDefault text ∧ r.voice_id = voice ∧
          r.version_num = 1) →
      audioSpeechPersist storage db misses maxTextLength text voice model audioData
          fmt now =
        ⟨misses + 1,
          db ++ [⟨db.length + 1, text, normalizeDefault text, voice, model,
            (storageStore storage text voice audioData.length fmt none now).path, fmt,
            audioData.length, 0, false, 1, now, now⟩],
          (storageStore storage text voice audioData.length fmt none now).storage,
          audioData,
          some (storageStore storage text voice audioData.length fmt none now).path,
          false⟩) := by
  constructor
  · intro h
    unfold audioSpeechPersist record_miss
    rw [if_pos h]
  · intro h hfresh
    unfold audioSpeechPersist record_miss add_entry
    rw [if_neg (not_lt.mpr h)]
    dsimp only
    rw [if_neg hfresh]

theorem C3_miss_path_completes_witness :
    audioSpeechPersist (mkStorage "/audio" 1 none {} none) [] 0 500 "Merhaba" "v"
        "tts-1" "AUDIO" "mp3" 7 =
      ⟨0 + 1,
        ([] : List CacheEntry) ++
          [⟨([] : List CacheEntry).length + 1, "Merhaba", normalizeDefault "Merhaba", "v", "tts-1",
          (storageStore (mkStorage "/audio" 1 none {} none) "Merhaba" "v"
            "AUDIO".length "mp3" none 7).path, "mp3",
          "AUDIO".length, 0, false, 1, 7, 7⟩],
        (storageStore (mkStorage "/audio" 1 none {} none) "Merhaba" "v"
          "AUDIO".length "mp3" none 7).storage,
        "AUDIO",
        some (storageStore (mkStorage "/audio" 1 none {} none) "Merhaba" "v"
          "AUDIO".length "mp3" none 7).path,
        false⟩ :=
  (C3_miss_path_completes (mkStorage "/audio" 1 none {} none) [] 0 500 "Merhaba"
    "v" "tts-1" "AUDIO" "mp3" 7).2 (by decide) (by decide)

/-! ## Claim C8 -/

/-- C8 counterexample: two non-filler entries, entry 1 never hit and old
(primary candidate, also the oldest `last_hit_at`), entry 2 hit once;
`max_entries = 0`.  The overflow SELECT does not exclude the primary set, so
entry 1 is returned twice and entry 2 never: the extension is NOT distinct
from the primary set, only one distinct row is evicted, and the remaining
entry count (1) still exceeds `max_entries` (0). -/
theorem C8_counterexample :
    ((get_eviction_candidates
        [⟨1, "t1", "f1", "v", "", "/a/1.mp3", "mp3", 0, 0, false, 1, 100, 100⟩,
         ⟨2, "t2", "f2", "v", "", "/a/2.mp3", "mp3", 0, 1, false, 1, 100, 500⟩]
        0 7 1000000).map CacheEntry.id = [1, 1]) ∧
    ((get_eviction_candidates
        [⟨1, "t1", "f1", "v", "", "/a/1.mp3", "mp3", 0, 0, false, 1, 100, 100⟩,
         ⟨2, "t2", "f2", "v", "", "/a/2.mp3", "mp3", 0, 1, false, 1, 100, 500⟩]
        0 7 1000000).map CacheEntry.id).dedup.length = 1 := by
  exact ⟨by decide, by decide⟩

/-- C8 (amended): `get_eviction_candidates` returns the primary candidates
(a permutation of the non-filler, never-hit, old-enough rows, sorted by
`created_at` ascending) followed, when the entry count minus the primary
count exceeds `max_entries`, by exactly overflow-many non-filler entries
sorted by `last_hit_at` ascending — drawn from ALL non-filler entries, so
possibly overlapping the primary set; evicting the returned set is
therefore not guaranteed to bring the remaining count to `max_entries`. -/
theorem C8_eviction_candidates_shape (db : List CacheEntry)
    (maxEntries minAgeDays : Nat) (now : Int) :
    ∃ primary extra,
      get_eviction_candidates db maxEntries minAgeDays now = primary ++ extra ∧
      primary.Perm (db.filter fun r => !r.is_filler && r.hit_count == 0 &&
        decide (r.created_at < now - 86400 * minAgeDays)) ∧
      primary.Sorted (fun a b => a.created_at ≤ b.created_at) ∧
      (if maxEntries < db.length - primary.length then
        extra.length = min (db.length - primary.length - maxEntries)
          (db.filter fun r => !r.is_filler).length ∧
        extra.Sorted (fun a b => a.last_hit_at ≤ b.last_hit_at) ∧
        ∀ r ∈ extra, r.is_filler = false ∧ r ∈ db
      else extra = []) := by
  haveI hTot : IsTotal CacheEntry (fun a b => a.created_at ≤ b.created_at) :=
    ⟨fun a b => le_total _ _⟩
  haveI hTr : IsTrans CacheEntry (fun a b => a.created_at ≤ b.created_at) :=
    ⟨fun _ _ _ hab hbc => le_trans hab hbc⟩
  haveI hTot2 : IsTotal CacheEntry (fun a b => a.last_hit_at ≤ b.last_hit_at) :=
    ⟨fun a b => le_total _ _⟩
  haveI hTr2 : IsTrans CacheEntry (fun a b => a.last_hit_at ≤ b.last_hit_at) :=
    ⟨fun _ _ _ hab hbc => le_trans hab hbc⟩
  refine ⟨List.insertionSort (fun a b => a.created_at ≤ b.created_at)
      (db.filter fun r => !r.is_filler && r.hit_count == 0 &&
        decide (r.created_at < now - 86400 * minAgeDays)),
    if maxEntries < db.length - (List.insertionSort
        (fun a b => a.created_at ≤ b.created_at)
        (db.filter fun r => !r.is_filler && r.hit_count == 0 &&
          decide (r.created_at < now - 86400 * minAgeDays))).length then
      (List.insertionSort (fun a b => a.last_hit_at ≤ b.last_hit_at)
        (db.filter fun r => !r.is_filler)).take
        (db.length - (List.insertionSort (fun a b => a.created_at ≤ b.created_at)
          (db.filter fun r => !r.is_filler && r.hit_count == 0 &&
            decide (r.created_at < now - 86400 * minAgeDays))).length - maxEntries)
    else [], ?_, List.perm_insertionSort _ _, List.sorted_insertionSort _ _, ?_⟩
  · unfold get_eviction_candidates
    split
    · rename_i hcond
      rw [if_pos hcond]
    · rename_i hcond
      rw [if_neg hcond]
      simp
  · split
    · refine ⟨?_, ?_, ?_⟩
      · rw [List.length_take, (List.perm_insertionSort
          (fun a b => a.last_hit_at ≤ b.last_hit_at)
          (db.filter fun r => !r.is_filler)).length_eq]
      · exact List.Pairwise.sublist (List.take_sublist _ _)
          (List.sorted_insertionSort _ _)
      · intro r hr
        have hmem : r ∈ db.filter fun r => !r.is_filler :=
          (List.perm_insertionSort _ _).mem_iff.mp
            (List.mem_of_mem_take hr)
        rcases List.mem_filter.mp hmem with ⟨hdb, hfil⟩
        exact ⟨by simpa using hfil, hdb⟩
    · rfl

/-! ## Claim C9 -/

/-- Any non-empty list of v1 rows holds a row that dominates every member
under (hit_count DESC, id ASC). -/
theorem exists_dominant_row (l : List V1Row) (hne : l ≠ []) :
    ∃ r ∈ l, ∀ q ∈ l, q.hit_count < r.hit_count ∨
      (q.hit_count = r.hit_count ∧ r.id ≤ q.id) := by
  induction l with
  | nil => exact absurd rfl hne
  | cons x xs ih =>
    rcases eq_or_ne xs [] with hxs | hxs
    · subst hxs
      refine ⟨x, List.mem_cons_self _ _, ?_⟩
      intro q hq
      rcases List.mem_singleton.mp hq with rfl
      omega
    · obtain ⟨m, hm, hdom⟩ := ih hxs
      by_cases hcmp : m.hit_count < x.hit_count ∨
          (m.hit_count = x.hit_count ∧ x.id ≤ m.id)
      · refine ⟨x, List.mem_cons_self _ _, ?_⟩
        intro q hq
        rcases List.mem_cons.mp hq with rfl | hq
        · omega
        · have := hdom q hq
          omega
      · refine ⟨m, List.mem_cons_of_mem _ hm, ?_⟩
        intro q hq
        rcases List.mem_cons.mp hq with rfl | hq
        · omega
        · exact hdom q hq

/-- C9: the v1→v2 migration adds the `version_num` column (skipping the
ALTER when the column is already there), creates the unique index, and — for
rows with SQL-unique ids — keeps, per `(text_normalized, voice_id)` group,
exactly the row with the highest `hit_count`, ties broken by smallest `id`,
deleting all the group's other rows. -/
theorem C9_migrate_to_v2_dedup (hasCol : Bool) (db : List V1Row)
    (hids : ∀ r ∈ db, ∀ q ∈ db, r.id = q.id → r = q) :
    (migrate_to_v2 hasCol db).alteredColumn = !hasCol ∧
    (migrate_to_v2 hasCol db).uniqueIndexCreated = true ∧
    (∀ r ∈ db, (r ∈ (migrate_to_v2 hasCol db).rows ↔
      ∀ q ∈ db, q.text_normalized = r.text_normalized → q.voice_id = r.voice_id →
        q ≠ r → (q.hit_count < r.hit_count ∨
          (q.hit_count = r.hit_count ∧ r.id < q.id)))) ∧
    (∀ g ∈ db, ∃ r ∈ (migrate_to_v2 hasCol db).rows,
      r.text_normalized = g.text_normalized ∧ r.voice_id = g.voice_id) ∧
    (∀ r ∈ (migrate_to_v2 hasCol db).rows, ∀ q ∈ (migrate_to_v2 hasCol db).rows,
      r.text_normalized = q.text_normalized → r.voice_id = q.voice_id → r = q) := by
  have hrows : ∀ r, r ∈ (migrate_to_v2 hasCol db).rows ↔
      r ∈ db ∧ survivesDedup db r := by
    intro r
    unfold migrate_to_v2
    simp [List.mem_filter]
  refine ⟨rfl, rfl, ?_, ?_, ?_⟩
  · intro r hr
    rw [hrows]
    unfold survivesDedup
    constructor
    · rintro ⟨-, hsurv⟩ q hq hkey1 hkey2 hne
      have hqid : q.id ≠ r.id := fun he => hne (hids q hq r hr he)
      have hnb : ¬(r.hit_count < q.hit_count ∨
          (q.hit_count = r.hit_count ∧ q.id < r.id)) :=
        fun h => hsurv ⟨q, hq, ⟨hkey1, hkey2⟩, h⟩
      omega
    · intro hdom
      refine ⟨hr, ?_⟩
      rintro ⟨q, hq, ⟨hkey1, hkey2⟩, hbefore⟩
      rcases eq_or_ne q r with rfl | hne
      · omega
      · have := hdom q hq hkey1 hkey2 hne
        omega
  · intro g hg
    have hne : (db.filter fun q => decide (q.text_normalized = g.text_normalized ∧
        q.voice_id = g.voice_id)) ≠ [] := by
      intro hnil
      have : g ∈ db.filter fun q => decide (q.text_normalized = g.text_normalized ∧
          q.voice_id = g.voice_id) := by
        rw [List.mem_filter]
        exact ⟨hg, by simp⟩
      rw [hnil] at this
      exact absurd this (List.not_mem_nil g)
    obtain ⟨m, hm, hdom⟩ := exists_dominant_row _ hne
    rcases List.mem_filter.mp hm with ⟨hmdb, hmkey⟩
    have hmkey2 : m.text_normalized = g.text_normalized ∧ m.voice_id = g.voice_id := by
      simpa using hmkey
    refine ⟨m, ?_, hmkey2⟩
    rw [hrows]
    refine ⟨hmdb, ?_⟩
    unfold survivesDedup
    rintro ⟨q, hq, ⟨hkey1, hkey2⟩, hbefore⟩
    have hqg : q ∈ db.filter fun x => decide (x.text_normalized = g.text_normalized ∧
        x.voice_id = g.voice_id) := by
      rw [List.mem_filter]
      refine ⟨hq, ?_⟩
      simp [hkey1, hkey2, hmkey2.1, hmkey2.2]
    have := hdom q hqg
    omega
  · intro r hr q hq hkey1 hkey2
    rcases (hrows r).mp hr with ⟨hrdb, hrsurv⟩
    rcases (hrows q).mp hq with ⟨hqdb, hqsurv⟩
    unfold survivesDedup at hrsurv hqsurv
    by_contra hne
    have h1 : ¬(r.hit_count < q.hit_count ∨
        (q.hit_count = r.hit_count ∧ q.id < r.id)) :=
      fun h => hrsurv ⟨q, hqdb, ⟨hkey1.symm, hkey2.symm⟩, h⟩
    have h2 : ¬(q.hit_count < r.hit_count ∨
        (r.hit_count = q.hit_count ∧ r.id < q.id)) :=
      fun h => hqsurv ⟨r, hrdb, ⟨hkey1, hkey2⟩, h⟩
    have hideq : r.id = q.id := by omega
    exact hne (hids r hrdb q hqdb hideq)

theorem C9_migrate_to_v2_dedup_witness :
    ((migrate_to_v2 false
        [⟨1, "hello", "v1", 2⟩, ⟨2, "hello", "v1", 10⟩, ⟨3, "hello", "v1", 5⟩]).rows =
      [⟨2, "hello", "v1", 10⟩]) ∧
    ((migrate_to_v2 false
        [⟨1, "hello", "v1", 2⟩, ⟨2, "hello", "v1", 10⟩, ⟨3, "hello", "v1", 5⟩]).alteredColumn =
      !false) ∧
    (∀ g ∈ [(⟨1, "hello", "v1", 2⟩ : V1Row), ⟨2, "hello", "v1", 10⟩, ⟨3, "hello", "v1", 5⟩],
      ∃ r ∈ (migrate_to_v2 false
        [(⟨1, "hello", "v1", 2⟩ : V1Row), ⟨2, "hello", "v1", 10⟩, ⟨3, "hello", "v1", 5⟩]).rows,
        r.text_normalized = g.text_normalized ∧ r.voice_id = g.voice_id) :=
  ⟨by decide,
   (C9_migrate_to_v2_dedup false
      [⟨1, "hello", "v1", 2⟩, ⟨2, "hello", "v1", 10⟩, ⟨3, "hello", "v1", 5⟩]
      (by decide)).1,
   (C9_migrate_to_v2_dedup false
      [⟨1, "hello", "v1", 2⟩, ⟨2, "hello", "v1", 10⟩, ⟨3, "hello", "v1", 5⟩]
      (by decide)).2.2.2.1⟩

/-! ## Claim C5 -/

/-- A `dropWhile` whose predicate fails on every element drops nothing. -/
theorem dropWhile_eq_self_of_not {α : Type} (p : α → Bool) (l : List α)
    (h : ∀ x ∈ l, p x = false) : l.dropWhile p = l := by
  cases l with
  | nil => rfl
  | cons x xs =>
    rw [List.dropWhile_cons, h x (List.mem_cons_self x xs)]
    simp

/-- Folding `_record_failure` over ordered timestamps that all lie within
the window of every later one: nothing is pruned, the queue accumulates all
of them, and the final step sets `open_until` once the threshold is
reached. -/
theorem foldl_recordFailure_spec (cfg : OrchestratorConfig) (ts : List Int) :
    ∀ (acc : List Int) (u : Int),
      (∀ x ∈ acc, ∀ t' ∈ ts, t' - cfg.failure_window_seconds ≤ x) →
      ts.Pairwise (fun a b => a ≤ b ∧ b - cfg.failure_window_seconds ≤ a) →
      (ts.foldl (fun st t => recordFailure cfg t st) ⟨acc, u⟩).failures = acc ++ ts ∧
      ∀ (hne : ts ≠ []), cfg.failure_threshold ≤ acc.length + ts.length →
        (ts.foldl (fun st t => recordFailure cfg t st) ⟨acc, u⟩).open_until =
          ts.getLast hne + cfg.cooldown_seconds := by
  induction ts with
  | nil =>
    intro acc u hacc hpw
    exact ⟨by simp, fun hne _ => absurd rfl hne⟩
  | cons t ts ih =>
    intro acc u hacc hpw
    obtain ⟨hhead, htail⟩ := List.pairwise_cons.mp hpw
    have hnd : acc.dropWhile (fun x => decide (x < t - cfg.failure_window_seconds)) =
        acc := by
      apply dropWhile_eq_self_of_not
      intro x hx
      simp only [decide_eq_false_iff_not, not_lt]
      have := hacc x hx t (List.mem_cons_self _ _)
      omega
    have hrf : recordFailure cfg t ⟨acc, u⟩ =
        ⟨acc ++ [t], if cfg.failure_threshold ≤ acc.length + 1 then
          t + cfg.cooldown_seconds else u⟩ := by
      unfold recordFailure pruneOldFailures
      rw [hnd]
      by_cases hc : cfg.failure_threshold ≤ acc.length + 1
      · rw [if_pos (by simpa using hc), if_pos hc]
      · rw [if_neg (by simpa using hc), if_neg hc]
    have hacc2 : ∀ x ∈ acc ++ [t], ∀ t' ∈ ts,
        t' - cfg.failure_window_seconds ≤ x := by
      intro x hx t' ht'
      rcases List.mem_append.mp hx with hx | hx
      · exact hacc x hx t' (List.mem_cons_of_mem _ ht')
      · rcases List.mem_singleton.mp hx with rfl
        exact (hhead t' ht').2
    obtain ⟨hfail, hopen⟩ := ih (acc ++ [t])
      (if cfg.failure_threshold ≤ acc.length + 1 then t + cfg.cooldown_seconds else u)
      hacc2 htail
    rw [List.foldl_cons, hrf]
    constructor
    · rw [hfail, List.append_assoc]
      rfl
    · intro hne hthr
      rcases eq_or_ne ts [] with rfl | hts
      · simp only [List.foldl_nil]
        have hc : cfg.failure_threshold ≤ acc.length + 1 := by
          simpa using hthr
        rw [if_pos hc]
        simp [List.getLast]
      · rw [hopen hts (by simp at hthr ⊢; omega), List.getLast_cons hts]

/-- The providers a `synthesize` walk actually calls all come from the
chain it walked. -/
theorem walkCalled_subset (cfg : OrchestratorConfig) (clock : Nat → Int)
    (outcome : String → SynthesisOutcome) :
    ∀ (chain : List String) (circ : String → CircuitState) (i : Nat),
      (synthesizeWalk cfg clock outcome chain circ i).called ⊆ chain := by
  intro chain
  induction chain with
  | nil =>
    intro circ i
    unfold synthesizeWalk
    exact fun a ha => absurd ha (List.not_mem_nil a)
  | cons p rest ih =>
    intro circ i
    unfold synthesizeWalk
    dsimp only
    split
    · exact fun a ha => List.mem_cons_of_mem _ (ih _ _ ha)
    · split
      · intro a ha
        rcases List.mem_singleton.mp ha with rfl
        exact List.mem_cons_self _ _
      · split
        · intro a ha
          rcases List.mem_cons.mp ha with rfl | ha
          · exact List.mem_cons_self _ _
          · exact List.mem_cons_of_mem _ (ih _ _ ha)
        · intro a ha
          rcases List.mem_singleton.mp ha with rfl
          exact List.mem_cons_self _ _

/-- C5: after `failure_threshold` counted failures within
`failure_window_seconds` (ordered timestamps, each within the window of
every later one), the provider's queue holds exactly those timestamps and
`open_until = last + cooldown_seconds`; a `synthesize` call before that
deadline skips the provider (its client is never invoked); and once the
deadline has passed, a successful call returns the audio and clears the
provider's entire failure queue, resetting `open_until`. -/
theorem C5_circuit_breaker_lifecycle (cfg : OrchestratorConfig) (ts : List Int)
    (hne : ts ≠ []) (hlen : ts.length = cfg.failure_threshold)
    (hpw : ts.Pairwise fun a b => a ≤ b ∧ b - cfg.failure_window_seconds ≤ a) :
    (foldFailures cfg ts).failures = ts ∧
    (foldFailures cfg ts).open_until = ts.getLast hne + cfg.cooldown_seconds ∧
    (∀ (clock : Nat → Int) (outcome : String → SynthesisOutcome) (p : String)
        (rest : List String) (circ : String → CircuitState) (i : Nat),
      circ p = foldFailures cfg ts → p ∉ rest →
      clock i < ts.getLast hne + cfg.cooldown_seconds →
      p ∉ (synthesizeWalk cfg clock outcome (p :: rest) circ i).called) ∧
    (∀ (clock : Nat → Int) (outcome : String → SynthesisOutcome) (p : String)
        (rest : List String) (circ : String → CircuitState) (i : Nat)
        (audio : String),
      circ p = foldFailures cfg ts →
      ts.getLast hne + cfg.cooldown_seconds ≤ clock i → outcome p = .ok audio →
      (synthesizeWalk cfg clock outcome (p :: rest) circ i).result = .ok audio ∧
      (synthesizeWalk cfg clock outcome (p :: rest) circ i).circuits p =
        ⟨[], 0⟩) := by
  obtain ⟨hfail, hopen⟩ := foldl_recordFailure_spec cfg ts [] 0
    (by intro x hx; exact absurd hx (List.not_mem_nil x)) hpw
  have hfail2 : (foldFailures cfg ts).failures = ts := by
    unfold foldFailures
    simpa using hfail
  have hopen2 : (foldFailures cfg ts).open_until =
      ts.getLast hne + cfg.cooldown_seconds := by
    unfold foldFailures
    rw [hopen hne (by omega)]
  refine ⟨hfail2, hopen2, ?_, ?_⟩
  · intro clock outcome p rest circ i hst hnotrest hbefore
    have hcheck : (isCircuitOpen cfg (clock i) (circ p)).1 = true := by
      unfold isCircuitOpen
      rw [hst]
      rw [if_pos (by rw [hopen2]; exact hbefore)]
    unfold synthesizeWalk
    dsimp only
    rw [hcheck]
    simp only [if_true]
    intro hmem
    exact hnotrest (walkCalled_subset cfg clock outcome rest _ _ hmem)
  · intro clock outcome p rest circ i audio hst hafter hok
    have hcheck : (isCircuitOpen cfg (clock i) (circ p)).1 = false := by
      unfold isCircuitOpen
      rw [hst]
      rw [if_neg (by rw [hopen2]; omega)]
    unfold synthesizeWalk
    dsimp only
    rw [hcheck, hok]
    simp only [Bool.false_eq_true, if_false]
    constructor <;> simp [updateCircuit, clearedCircuit]

theorem C5_circuit_breaker_lifecycle_witness :
    ((foldFailures {} [1000, 1001, 1002]).failures = [1000, 1001, 1002]) ∧
    ((foldFailures {} [1000, 1001, 1002]).open_until =
      ([1000, 1001, 1002] : List Int).getLast (by decide) + ({} : OrchestratorConfig).cooldown_seconds) ∧
    ("litellm" ∉ (synthesizeWalk {} (fun _ => 1100) (fun _ => .ok "edge-audio")
      ["litellm"] (fun _ => foldFailures {} [1000, 1001, 1002]) 0).called) ∧
    ((synthesizeWalk {} (fun _ => 1400) (fun _ => .ok "audio-2")
      ["litellm"] (fun _ => foldFailures {} [1000, 1001, 1002]) 0).result =
        .ok "audio-2" ∧
      (synthesizeWalk {} (fun _ => 1400) (fun _ => .ok "audio-2")
        ["litellm"] (fun _ => foldFailures {} [1000, 1001, 1002]) 0).circuits
          "litellm" = ⟨[], 0⟩) := by
  obtain ⟨h1, h2, h3, h4⟩ := C5_circuit_breaker_lifecycle {} [1000, 1001, 1002]
    (by decide) (by decide) (by decide)
  exact ⟨h1, h2,
    h3 (fun _ => 1100) (fun _ => .ok "edge-audio") "litellm" [] _ 0 rfl
      (by decide) (by decide),
    h4 (fun _ => 1400) (fun _ => .ok "audio-2") "litellm" [] _ 0 "audio-2" rfl
      (by decide) rfl⟩

/-! ## Claim C6 -/

/-- Lowercase ASCII letters and the space character: the fragment on which
the amended idempotence statement is proved. -/
def plainChars : List Char :=
  ['a', 'b', 'c', 'd', 'e', 'f', 'g', 'h', 'i', 'j', 'k', 'l', 'm',
   'n', 'o', 'p', 'q', 'r', 's', 't', 'u', 'v', 'w', 'x', 'y', 'z', ' ']

/-- Per-character facts about the plain fragment: no markup openers, every
normalization stage other than whitespace handling fixes the character, and
the only whitespace character is the space itself. -/
theorem plain_char_facts (c : Char) (h : c ∈ plainChars) :
    c ≠ '<' ∧ c ≠ '(' ∧
    diacriticFold (pyLowerChar (turkishTranslate c)) = c ∧
    (pyIsWord c || pyIsSpace c) = true ∧
    c.isDigit = false ∧
    (pyIsSpace c = true ↔ c = ' ') := by
  fin_cases h <;> decide

/-- The pause-marker regex cannot match at a head other than `'<'`. -/
theorem matchPause_eq_none (c : Char) (rest : List Char) (hc : c ≠ '<') :
    matchPause (c :: rest) = none := by
  cases rest with
  | nil => rfl
  | cons b r =>
    show (if c = '<' ∧ b = '#' then _ else none) = none
    exact if_neg fun hx => hc hx.1

/-- The interjection regex cannot match at a head other than `'('`. -/
theorem matchInterj_eq_none (c : Char) (rest : List Char) (hc : c ≠ '(') :
    matchInterj (c :: rest) = none := by
  show (if c = '(' then _ else none) = none
  exact if_neg hc

theorem subPauseFuel_id (fuel : Nat) (l : List Char)
    (h : ∀ c ∈ l, c ≠ '<') : subPauseFuel fuel l = l := by
  induction fuel generalizing l with
  | zero => rfl
  | succ fuel ih =>
    cases l with
    | nil => rfl
    | cons c rest =>
      unfold subPauseFuel
      rw [matchPause_eq_none c rest (h c (List.mem_cons_self c rest))]
      exact congrArg (c :: ·) (ih rest fun d hd => h d (List.mem_cons_of_mem c hd))

theorem subInterjFuel_id (fuel : Nat) (l : List Char)
    (h : ∀ c ∈ l, c ≠ '(') : subInterjFuel fuel l = l := by
  induction fuel generalizing l with
  | zero => rfl
  | succ fuel ih =>
    cases l with
    | nil => rfl
    | cons c rest =>
      unfold subInterjFuel
      rw [matchInterj_eq_none c rest (h c (List.mem_cons_self c rest))]
      exact congrArg (c :: ·) (ih rest fun d hd => h d (List.mem_cons_of_mem c hd))

theorem lower_stage_id (l : List Char) (h : ∀ c ∈ l, c ∈ plainChars) :
    (turkish_lower l).map diacriticFold = l := by
  induction l with
  | nil => rfl
  | cons c rest ih =>
    have hc := (plain_char_facts c (h c (List.mem_cons_self _ _))).2.2.1
    unfold turkish_lower at *
    simp only [List.map_cons]
    rw [hc, ih fun d hd => h d (List.mem_cons_of_mem _ hd)]

theorem stripPunct_id (l : List Char) (h : ∀ c ∈ l, c ∈ plainChars) :
    stripPunct l = l := by
  unfold stripPunct
  exact List.filter_eq_self.mpr fun c hc => (plain_char_facts c (h c hc)).2.2.2.1

theorem replaceNumsFuel_id (fuel : Nat) (l : List Char)
    (h : ∀ c ∈ l, c.isDigit = false) : replaceNumsFuel fuel l = l := by
  induction fuel generalizing l with
  | zero => rfl
  | succ fuel ih =>
    cases l with
    | nil => rfl
    | cons c rest =>
      unfold replaceNumsFuel
      rw [h c (List.mem_cons_self _ _)]
      simp only [Bool.false_eq_true, if_false]
      rw [ih rest fun d hd => h d (List.mem_cons_of_mem _ hd)]

theorem subPause_id (l : List Char) (h : ∀ c ∈ l, c ≠ '<') : subPause l = l :=
  subPauseFuel_id l.length l h

theorem subInterj_id (l : List Char) (h : ∀ c ∈ l, c ≠ '(') : subInterj l = l :=
  subInterjFuel_id l.length l h

theorem replaceNums_id (l : List Char) (h : ∀ c ∈ l, c.isDigit = false) :
    replaceNums l = l :=
  replaceNumsFuel_id l.length l h

theorem length_dropWhile_le {α : Type} (p : α → Bool) (l : List α) :
    (l.dropWhile p).length ≤ l.length :=
  (List.dropWhile_suffix p).sublist.length_le

/-- The first element surviving a `dropWhile` fails the predicate. -/
theorem dropWhile_head_false (l : List Char) (p : Char → Bool) (d : Char)
    (ds : List Char) (h : l.dropWhile p = d :: ds) : p d = false := by
  induction l with
  | nil => simp at h
  | cons x xs ih =>
    rw [List.dropWhile_cons] at h
    by_cases hx : p x = true
    · rw [if_pos hx] at h
      exact ih h
    · rw [if_neg hx] at h
      cases h
      simpa using hx

/-- `pyStrip` written with Mathlib's right-hand `rdropWhile`. -/
theorem pyStrip_eq_rdrop (l : List Char) :
    pyStrip l = List.rdropWhile pyIsSpace (l.dropWhile pyIsSpace) := rfl

theorem pyStrip_part (l : List Char) : pyStrip l <:+: l := by
  rw [pyStrip_eq_rdrop]
  exact List.infix_iff_prefix_suffix.mpr
    ⟨l.dropWhile pyIsSpace, List.rdropWhile_prefix pyIsSpace (l.dropWhile pyIsSpace),
      List.dropWhile_suffix pyIsSpace⟩

theorem mem_pyStrip {c : Char} {l : List Char} (hc : c ∈ pyStrip l) : c ∈ l :=
  (pyStrip_part l).sublist.subset hc

theorem mem_collapseWsFuel {c : Char} (fuel : Nat) (l : List Char)
    (hc : c ∈ collapseWsFuel fuel l) : c = ' ' ∨ c ∈ l := by
  induction fuel generalizing l with
  | zero => exact Or.inr hc
  | succ fuel ih =>
    cases l with
    | nil => exact Or.inr hc
    | cons d rest =>
      unfold collapseWsFuel at hc
      by_cases hd : pyIsSpace d = true
      · rw [if_pos hd] at hc
        rcases List.mem_cons.mp hc with rfl | hc
        · exact Or.inl rfl
        · rcases ih _ hc with h | h
          · exact Or.inl h
          · exact Or.inr (List.mem_cons_of_mem _
              ((List.dropWhile_suffix pyIsSpace).sublist.subset h))
      · rw [if_neg hd] at hc
        rcases List.mem_cons.mp hc with rfl | hc
        · exact Or.inr (List.mem_cons_self _ _)
        · rcases ih _ hc with h | h
          · exact Or.inl h
          · exact Or.inr (List.mem_cons_of_mem _ h)

theorem pyStrip_idem (l : List Char) : pyStrip (pyStrip l) = pyStrip l := by
  rw [pyStrip_eq_rdrop, pyStrip_eq_rdrop]
  have hdw : (List.rdropWhile pyIsSpace (l.dropWhile pyIsSpace)).dropWhile pyIsSpace =
      List.rdropWhile pyIsSpace (l.dropWhile pyIsSpace) := by
    cases hx : List.rdropWhile pyIsSpace (l.dropWhile pyIsSpace) with
    | nil => rfl
    | cons d ds =>
      obtain ⟨t, ht⟩ := List.rdropWhile_prefix pyIsSpace (l.dropWhile pyIsSpace)
      rw [hx] at ht
      have hd : pyIsSpace d = false := by
        apply dropWhile_head_false l pyIsSpace d (ds ++ t)
        rw [← ht]
        rfl
      rw [List.dropWhile_cons, hd]
      simp
  rw [hdw, List.rdropWhile_idempotent]

/-- The whitespace-collapse output never puts two whitespace characters next
to each other. -/
theorem collapseWsFuel_head (fuel : Nat) (l : List Char) (hf : l.length ≤ fuel) :
    (collapseWsFuel fuel l).head? =
      l.head?.map fun c => if pyIsSpace c then ' ' else c := by
  cases fuel with
  | zero =>
    have : l = [] := List.length_eq_zero.mp (Nat.le_zero.mp hf)
    subst this
    rfl
  | succ fuel =>
    cases l with
    | nil => rfl
    | cons c rest =>
      unfold collapseWsFuel
      by_cases hc : pyIsSpace c = true
      · rw [if_pos hc]
        simp [hc]
      · rw [if_neg hc]
        simp [hc]

theorem collapseWsFuel_noAdj (fuel : Nat) (l : List Char) (hf : l.length ≤ fuel) :
    List.Chain' (fun a b => pyIsSpace a = false ∨ pyIsSpace b = false)
      (collapseWsFuel fuel l) := by
  induction fuel generalizing l with
  | zero =>
    have : l = [] := List.length_eq_zero.mp (Nat.le_zero.mp hf)
    subst this
    exact List.chain'_nil
  | succ fuel ih =>
    cases l with
    | nil => exact List.chain'_nil
    | cons c rest =>
      have hlen : (rest.dropWhile pyIsSpace).length ≤ fuel :=
        le_trans (length_dropWhile_le _ _) (by simpa using Nat.le_of_succ_le_succ hf)
      have hlen2 : rest.length ≤ fuel := by simpa using Nat.le_of_succ_le_succ hf
      unfold collapseWsFuel
      by_cases hc : pyIsSpace c = true
      · rw [if_pos hc, List.chain'_cons']
        refine ⟨?_, ih _ hlen⟩
        intro y hy
        rw [collapseWsFuel_head fuel _ hlen] at hy
        cases hdrop : rest.dropWhile pyIsSpace with
        | nil => rw [hdrop] at hy; simp at hy
        | cons d ds =>
          have hdns : pyIsSpace d = false := dropWhile_head_false rest pyIsSpace d ds hdrop
          rw [hdrop] at hy
          simp only [List.head?_cons, Option.map_some', Option.mem_def,
            Option.some.injEq] at hy
          right
          rw [← hy]
          simp [hdns]
      · rw [if_neg hc, List.chain'_cons']
        refine ⟨?_, ih _ hlen2⟩
        intro y _
        left
        simpa using hc

theorem collapseWsFuel_eq_self (fuel : Nat) (l : List Char)
    (hplain : ∀ c ∈ l, c ∈ plainChars)
    (hadj : List.Chain' (fun a b => pyIsSpace a = false ∨ pyIsSpace b = false) l) :
    collapseWsFuel fuel l = l := by
  induction fuel generalizing l with
  | zero => rfl
  | succ fuel ih =>
    cases l with
    | nil => rfl
    | cons c rest =>
      obtain ⟨hhead, htail⟩ := List.chain'_cons'.mp hadj
      have hrestplain : ∀ d ∈ rest, d ∈ plainChars :=
        fun d hd => hplain d (List.mem_cons_of_mem _ hd)
      unfold collapseWsFuel
      by_cases hc : pyIsSpace c = true
      · have hcsp : c = ' ' :=
          ((plain_char_facts c (hplain c (List.mem_cons_self _ _))).2.2.2.2.2).mp hc
        have hrest : rest.dropWhile pyIsSpace = rest := by
          cases rest with
          | nil => rfl
          | cons d ds =>
            have hR := hhead d rfl
            have hdns : pyIsSpace d = false := by
              rcases hR with h | h
              · rw [hc] at h; exact absurd h (by simp)
              · exact h
            rw [List.dropWhile_cons, hdns]
            simp
        rw [if_pos hc, hrest, hcsp, ih rest hrestplain htail]
      · rw [if_neg hc, ih rest hrestplain htail]

theorem collapseWs_noAdj (l : List Char) :
    List.Chain' (fun a b => pyIsSpace a = false ∨ pyIsSpace b = false)
      (collapseWs l) :=
  collapseWsFuel_noAdj l.length l le_rfl

theorem collapseWs_eq_self (l : List Char) (hplain : ∀ c ∈ l, c ∈ plainChars)
    (hadj : List.Chain' (fun a b => pyIsSpace a = false ∨ pyIsSpace b = false) l) :
    collapseWs l = l :=
  collapseWsFuel_eq_self l.length l hplain hadj

theorem mem_collapseWs {c : Char} {l : List Char} (hc : c ∈ collapseWs l) :
    c = ' ' ∨ c ∈ l :=
  mem_collapseWsFuel l.length l hc

/-- C6 counterexample: with the default configuration (number collapse and
punctuation stripping both enabled), `normalize "a 3" = "a #"`, but
re-normalizing strips the `'#'` placeholder as punctuation:
`normalize (normalize "a 3") = "a" ≠ "a #"`.  `normalize` is therefore not
idempotent. -/
theorem C6_counterexample :
    normalizeDefault (normalizeDefault "a 3") ≠ normalizeDefault "a 3" := by
  decide

/-- On the plain fragment, `normalize` reduces to trimming plus (when
enabled) whitespace collapse: every other stage is the identity there. -/
theorem normalizeChars_plain (cfg : NormalizeConfig) (l : List Char)
    (h : ∀ c ∈ l, c ∈ plainChars) :
    normalizeChars cfg l =
      pyStrip (if cfg.collapse_whitespace then collapseWs (pyStrip l)
        else pyStrip l) := by
  unfold normalizeChars
  by_cases h0 : (pyStrip l).isEmpty
  · rw [if_pos h0]
    have hnil : pyStrip l = [] := by
      cases he : pyStrip l with
      | nil => rfl
      | cons x xs => rw [he] at h0; simp at h0
    rw [hnil]
    cases cfg.collapse_whitespace <;> simp [collapseWs, collapseWsFuel, pyStrip]
  · rw [if_neg h0]
    dsimp only
    have hp : ∀ c ∈ pyStrip l, c ∈ plainChars := fun c hc => h c (mem_pyStrip hc)
    have h1 : subInterj (subPause (pyStrip l)) = pyStrip l := by
      rw [subPause_id _ fun c hc => (plain_char_facts c (hp c hc)).1]
      exact subInterj_id _ fun c hc => (plain_char_facts c (hp c hc)).2.1
    rw [h1, ite_self]
    rw [lower_stage_id _ hp, ite_self]
    have hcp : ∀ c ∈ (if cfg.collapse_whitespace then collapseWs (pyStrip l)
        else pyStrip l), c ∈ plainChars := by
      split
      · intro c hc
        rcases mem_collapseWs hc with rfl | hc
        · decide
        · exact hp c hc
      · exact hp
    rw [stripPunct_id _ hcp, ite_self]
    rw [replaceNums_id _ fun c hc => (plain_char_facts c (hcp c hc)).2.2.2.2.1,
      ite_self]

/-- C6 (amended): `normalize` is NOT idempotent in general — re-normalizing
an output containing the `'#'` placeholder strips it (see the
counterexample) — but it is idempotent, for every configuration, on inputs
made of lowercase ASCII letters and spaces: there
`normalize (normalize s) = normalize s`. -/
theorem C6_normalize_idempotent_on_plain (cfg : NormalizeConfig) (s : String)
    (h : ∀ c ∈ s.data, c ∈ plainChars) :
    normalize cfg (normalize cfg s) = normalize cfg s := by
  unfold normalize
  show String.mk (normalizeChars cfg (normalizeChars cfg s.data)) = _
  have hmain : normalizeChars cfg (normalizeChars cfg s.data) =
      normalizeChars cfg s.data := by
    rw [normalizeChars_plain cfg s.data h]
    have hyplain : ∀ c ∈ pyStrip (if cfg.collapse_whitespace then
        collapseWs (pyStrip s.data) else pyStrip s.data), c ∈ plainChars := by
      intro c hc
      have hc2 := mem_pyStrip hc
      revert hc2
      split
      · intro hc2
        rcases mem_collapseWs hc2 with rfl | hc3
        · decide
        · exact h c (mem_pyStrip hc3)
      · intro hc2
        exact h c (mem_pyStrip hc2)
    rw [normalizeChars_plain cfg _ hyplain]
    rw [pyStrip_idem]
    cases hflag : cfg.collapse_whitespace with
    | false =>
      simp only [if_false, Bool.false_eq_true]
      exact pyStrip_idem _
    | true =>
      simp only [if_true]
      have hadj : List.Chain' (fun a b => pyIsSpace a = false ∨ pyIsSpace b = false)
          (pyStrip (collapseWs (pyStrip s.data))) :=
        List.Chain'.infix (collapseWs_noAdj _) (pyStrip_part _)
      have hplainy : ∀ c ∈ pyStrip (collapseWs (pyStrip s.data)), c ∈ plainChars := by
        intro c hc
        have := hyplain c
        rw [hflag] at this
        exact this (by simpa using hc)
      rw [collapseWs_eq_self _ hplainy hadj]
      exact pyStrip_idem _
  rw [hmain]

theorem C6_normalize_idempotent_on_plain_witness :
    normalize {} (normalize {} "ab c") = normalize {} "ab c" :=
  C6_normalize_idempotent_on_plain {} "ab c" (by decide)

end Cachevoice
